import Mathlib

/-!
Verification of the MivaFocus course-scraper repository.

The development shallowly embeds the Python sources:
  * `auto_update.py`  — content-hash computation (`_calculate_hash`),
    flat department extraction (`_get_flat_depts`), change detection
    (`_detect_changes`) and the update driver (`run_update`);
  * `scrape_courses.py` — department-code derivation (`_extract_dept_code`),
    course-table parsing (`_parse_table_courses`), semester detection
    (`_detect_table_semester`), per-page extraction and the aggregation of
    `scrape_all`.

Catalog data is modelled with typed association lists mirroring the JSON
dictionaries the Python code manipulates (Python dicts iterate in insertion
order; assignment to an existing key replaces the value in place).
`json.dumps(..., sort_keys=True)` is modelled by `dumpsObj`, which serializes
entries sorted by key.  SHA-256 itself is not modelled: the hash function is a
parameter, which is sound for every claim here because they only compare
digests of serializations for equality.  Network fetches are modelled by an
oracle giving the outcome of each attempt.
-/

namespace Miva

/-- Python dict lookup: first (and, for dicts, only) binding of a key. -/
def dictGet {α : Type} (l : List (String × α)) (k : String) : Option α :=
  match l with
  | [] => none
  | p :: rest => if p.1 = k then some p.2 else dictGet rest k

/-- Python dict assignment `d[k] = v`: replaces the value in place when the
key is present (keeping its position), otherwise appends the new binding. -/
def dictInsert {α : Type} (l : List (String × α)) (k : String) (v : α) :
    List (String × α) :=
  match l with
  | [] => [(k, v)]
  | p :: rest => if p.1 = k then (k, v) :: rest else p :: dictInsert rest k v

/-- A scraped course: `{'title': ..., 'creditUnits': ...}`. -/
structure Course where
  title : String
  creditUnits : Nat
deriving DecidableEq, Repr

/-- Semester label → list of courses (`courses_by_semester`). -/
abbrev Semesters := List (String × List Course)

/-- Level label → semesters (`courses_by_level`). -/
abbrev Levels := List (String × Semesters)

/-- A department entry as stored by `scrape_all`:
`{'name': ..., 'url': ..., 'courses': ...}`. -/
structure DeptEntry where
  name : String
  url : String
  courses : Levels
deriving DecidableEq, Repr

/-- A faculty value `{'departments': {...}}`: code → department entry. -/
abbrev Faculty := List (String × DeptEntry)

/-- The `faculties` mapping: faculty name → faculty. -/
abbrev Faculties := List (String × Faculty)

/-- The full data structure: `metadata` (arbitrary, never read by the change
detector) plus the `faculties` mapping. -/
structure Catalog (α : Type) where
  metadata : α
  faculties : Faculties
deriving DecidableEq

/-- The comparison record `_get_flat_depts` builds per department:
only `name` and `courses`. -/
structure FlatDept where
  name : String
  courses : Levels
deriving DecidableEq, Repr

/-- The `changes` dictionary of `_detect_changes`. -/
structure Changes where
  new_departments : List String
  modified_departments : List String
  new_courses : Nat
  modified_courses : Nat
deriving DecidableEq, Repr

/-! ### `json.dumps(..., sort_keys=True)` -/

/-- Key order used by `sort_keys=True`. -/
def keyLe {α : Type} (p q : String × α) : Prop := p.1 ≤ q.1

instance {α : Type} : DecidableRel (@keyLe α) := fun p q => by
  unfold keyLe; infer_instance

instance {α : Type} : IsTotal (String × α) keyLe :=
  ⟨fun a b => le_total a.1 b.1⟩

instance {α : Type} : IsTrans (String × α) keyLe :=
  ⟨fun _ _ _ h h' => le_trans h h'⟩

/-- Entries sorted by key, as `sort_keys=True` emits them. -/
def sortEntries {α : Type} (l : List (String × α)) : List (String × α) :=
  l.insertionSort keyLe

/-- JSON string literal (escaping is immaterial to every claim and elided). -/
def jstr (s : String) : String := "\"" ++ s ++ "\""

/-- Serialize an object from its entry list, keys sorted, `", "` / `": "`
separators as `json.dumps` uses by default. -/
def dumpsObj {α : Type} (f : α → String) (l : List (String × α)) : String :=
  "\x7b" ++ String.intercalate ", "
    ((sortEntries l).map (fun p => jstr p.1 ++ ": " ++ f p.2)) ++ "\x7d"

/-- Serialize a JSON array. -/
def dumpsArr {α : Type} (f : α → String) (xs : List α) : String :=
  "[" ++ String.intercalate ", " (xs.map f) ++ "]"

/-- A course object; `sort_keys=True` puts `creditUnits` before `title`. -/
def dumpsCourse (c : Course) : String :=
  "\x7b\"creditUnits\": " ++ toString c.creditUnits ++ ", \"title\": "
    ++ jstr c.title ++ "\x7d"

/-- The `courses_by_semester` dictionary. -/
def dumpsSemesters (s : Semesters) : String :=
  dumpsObj (dumpsArr dumpsCourse) s

/-- The `courses` subtree of a department (`courses_by_level`). -/
def dumpsLevels (l : Levels) : String :=
  dumpsObj dumpsSemesters l

/-- A department entry; sorted keys: `courses`, `name`, `url`. -/
def dumpsDept (d : DeptEntry) : String :=
  "\x7b\"courses\": " ++ dumpsLevels d.courses ++ ", \"name\": "
    ++ jstr d.name ++ ", \"url\": " ++ jstr d.url ++ "\x7d"

/-- A faculty value `{"departments": {...}}`. -/
def dumpsFaculty (f : Faculty) : String :=
  "\x7b\"departments\": " ++ dumpsObj dumpsDept f ++ "\x7d"

/-- The whole `faculties` mapping, exactly what `_calculate_hash` feeds to
`json.dumps(..., sort_keys=True)`. -/
def dumpsFaculties (fs : Faculties) : String :=
  dumpsObj dumpsFaculty fs

/-! ### `auto_update.py` -/

/-- `_calculate_hash`: SHA-256 (abstracted as `hash`) of the key-sorted JSON
serialization of `data.get('faculties', {})` only; `metadata` is excluded. -/
def calculate_hash {α : Type} (hash : String → String) (data : Catalog α) :
    String :=
  hash (dumpsFaculties data.faculties)

/-- `_get_flat_depts`: flatten all faculties' departments into one dict of
`{'name': ..., 'courses': ...}` records, via Python dict assignment. -/
def get_flat_depts {α : Type} (data : Catalog α) : List (String × FlatDept) :=
  data.faculties.foldl
    (fun acc fac =>
      fac.2.foldl
        (fun acc2 dept =>
          dictInsert acc2 dept.1 ⟨dept.2.name, dept.2.courses⟩)
        acc)
    []

/-- `sum(len(sem) for level in courses.values() for sem in level.values())`. -/
def deptCourseCount (courses : Levels) : Nat :=
  (courses.map (fun lv => (lv.2.map (fun sem => sem.2.length)).sum)).sum

/-- First loop of `_detect_changes`: departments absent from the old data. -/
def newDeptStep (old_depts : List (String × FlatDept)) (acc : Changes)
    (p : String × FlatDept) : Changes :=
  if dictGet old_depts p.1 = none then
    { acc with
      new_departments := acc.new_departments ++ [p.1],
      new_courses := acc.new_courses + deptCourseCount p.2.courses }
  else acc

/-- Second loop of `_detect_changes`: departments present in both whose
`courses` subtrees serialize differently. -/
def modDeptStep (old_depts : List (String × FlatDept)) (acc : Changes)
    (p : String × FlatDept) : Changes :=
  match dictGet old_depts p.1 with
  | none => acc
  | some old_dept =>
    if p.1 ∈ acc.new_departments then acc
    else
      let old_courses := old_dept.courses
      let new_courses := p.2.courses
      if dumpsLevels old_courses = dumpsLevels new_courses then acc
      else
        let old_count : Int := deptCourseCount old_courses
        let new_count : Int := deptCourseCount new_courses
        let diff : Int := new_count - old_count
        { acc with
          modified_departments := acc.modified_departments ++ [p.1],
          new_courses :=
            if 0 < diff then acc.new_courses + diff.toNat
            else acc.new_courses,
          modified_courses :=
            if diff < 0 then acc.modified_courses + (-diff).toNat
            else acc.modified_courses }

/-- `_detect_changes`: summarize changes between the old and the new data.
`create_initial_changelog` is `settings.CREATE_INITIAL_CHANGELOG`. -/
def detect_changes {α β : Type} (create_initial_changelog : Bool)
    (old_data : Catalog α) (new_data : Catalog β) : Changes :=
  let old_depts := get_flat_depts old_data
  let new_depts := get_flat_depts new_data
  if old_depts = [] then
    if create_initial_changelog then
      { new_departments := new_depts.map Prod.fst,
        modified_departments := [],
        new_courses := (new_depts.map (fun p => deptCourseCount p.2.courses)).sum,
        modified_courses := 0 }
    else
      { new_departments := [], modified_departments := [],
        new_courses := 0, modified_courses := 0 }
  else
    let afterNew := new_depts.foldl (newDeptStep old_depts)
      { new_departments := [], modified_departments := [],
        new_courses := 0, modified_courses := 0 }
    new_depts.foldl (modDeptStep old_depts) afterNew

/-! ### `scrape_courses.py` -/

/-- Python's substring test `needle in hay`, on character lists. -/
def subOf (needle : List Char) : List Char → Bool
  | [] => needle.isEmpty
  | c :: t => needle.isPrefixOf (c :: t) || subOf needle t

/-- `needle in hay` for strings. -/
def containsSub (hay needle : String) : Bool := subOf needle.toList hay.toList

/-- Python's `str.lower()` (ASCII-wise), character by character. -/
def lowerStr (s : String) : String := String.mk (s.toList.map Char.toLower)

/-- `key.replace(' ', '-')`: the pattern is a single character, so the
replacement is character by character. -/
def hyphenate (s : String) : String :=
  String.mk (s.toList.map (fun c => if c = ' ' then '-' else c))

/-- `s.startswith(pre)`. -/
def strStartsWith (s pre : String) : Bool := pre.toList.isPrefixOf s.toList

/-- `MivaCourseScraper.DEPARTMENT_CODES`, in source (insertion) order. -/
def DEPARTMENT_CODES : List (String × String) :=
  [("computer science", "CSC"),
   ("cybersecurity", "CYB"),
   ("data science", "DTS"),
   ("information technology", "IFT"),
   ("software engineering", "SEN"),
   ("business management", "BUA"),
   ("economics", "ECO"),
   ("accounting", "ACC"),
   ("public policy and administration", "PPA"),
   ("entrepreneurship", "ENT"),
   ("criminology and security studies", "CRS"),
   ("mass communication", "MAC"),
   ("communication and media studies", "MAC"),
   ("nursing science", "NUR"),
   ("public health", "PHH")]

/-- A regex word character (`\w` restricted to ASCII): letter, digit or
underscore. -/
def isWordChar (c : Char) : Bool := c.isAlpha || c.isDigit || c == '_'

/-- ASCII lowercase letter, the `[a-z]` character class. -/
def isLowerAZ (c : Char) : Bool := 'a' ≤ c && c ≤ 'z'

/-- ASCII uppercase letter, the `[A-Z]` character class. -/
def isUpperAZ (c : Char) : Bool := 'A' ≤ c && c ≤ 'Z'

/-- `re.findall(r'\b[A-Z][a-z]*', s)`: all capitalized words, each as its
initial plus the following lowercase run.  `prev` is the character before the
scan position (`none` at the start of the string). -/
def capWordsAux (prev : Option Char) : List Char → List (Char × List Char)
  | [] => []
  | c :: rest =>
    if isUpperAZ c && (match prev with | none => true | some p => !isWordChar p) then
      let run := rest.takeWhile isLowerAZ
      (c, run) :: capWordsAux (some (run.getLastD c)) (rest.dropWhile isLowerAZ)
    else
      capWordsAux (some c) rest
termination_by l => l.length
decreasing_by
  · exact Nat.lt_succ_of_le (List.dropWhile_sublist _).length_le
  · exact Nat.lt_succ_of_le (Nat.le_refl _)

/-- `_extract_dept_code`: name-table match, then URL-table match (spaces
replaced by hyphens), then an acronym of up to the first three capitalized
words, then the `"UNK"` sentinel. -/
def extract_dept_code (dept_name : String) (url : String) : String :=
  let dept_lower := lowerStr dept_name
  match DEPARTMENT_CODES.find? (fun p => containsSub dept_lower p.1) with
  | some p => p.2
  | none =>
    match (if url ≠ "" then
             DEPARTMENT_CODES.find?
               (fun p => containsSub (lowerStr url) (hyphenate p.1))
           else none) with
    | some p => p.2
    | none =>
      let words := capWordsAux none dept_name.toList
      if words ≠ [] then
        String.mk ((words.take 3).map (fun w => w.1.toUpper))
      else "UNK"

/-- Value of a contiguous run of decimal digits. -/
def digitsToNat (ds : List Char) : Nat :=
  ds.foldl (fun n c => n * 10 + (c.toNat - '0'.toNat)) 0

/-- `re.search(r'(\d+)', s)` followed by `int(...)`: the first maximal run of
digits in `s`, parsed; `none` when `s` has no digit. -/
def firstIntSub (s : String) : Option Nat :=
  let rest := s.toList.dropWhile (fun c => !c.isDigit)
  let ds := rest.takeWhile Char.isDigit
  if ds = [] then none else some (digitsToNat ds)

/-- A table row: whether it carries the `accordion-header` class, and the
stripped texts of its `td` cells. -/
structure Row where
  accordionHeader : Bool
  cells : List String
deriving DecidableEq, Repr

/-- The fallback row filter of `_parse_table_courses`: exactly two cells,
non-empty first cell longer than 3 characters, a digit in the second cell. -/
def validFallbackRow (r : Row) : Bool :=
  match r.cells with
  | [first_text, second_text] =>
    !(first_text = "") && first_text.length > 3
      && second_text.toList.any Char.isDigit
  | _ => false

/-- Body of the extraction loop of `_parse_table_courses`: a row with at
least two cells yields `{'title': cells[0], 'creditUnits': int(first integer
substring of cells[1])}` when both `units_match` and `title` are truthy. -/
def parseRow (r : Row) : Option Course :=
  match r.cells with
  | title :: units_text :: _ =>
    match firstIntSub units_text with
    | some n => if title ≠ "" then some ⟨title, n⟩ else none
    | none => none
  | _ => none

/-- `_parse_table_courses`: rows tagged `accordion-header`, else the fallback
filter; from each row with at least two cells, `title` is the first cell and
`creditUnits` the first integer substring of the second; rows with no integer
substring or an empty title are dropped. -/
def parse_table_courses (rows : List Row) : List Course :=
  let accordion_rows := rows.filter (·.accordionHeader)
  let accordion_rows :=
    if accordion_rows = [] then rows.filter validFallbackRow else accordion_rows
  accordion_rows.filterMap parseRow

/-- A table as `_detect_table_semester` and `_parse_table_courses` see it:
its classes reduced to the `curriculum-table` flag, the `.string` texts of its
previous siblings (nearest first — the iteration order of
`previous_siblings`, with sibling stripping immaterial to the cue search),
the `th` texts of its `thead` ([] when absent), the text of its first `tr`
(if any), and its body rows. -/
structure TableModel where
  curriculum : Bool
  prevSiblingTexts : List String
  theadTexts : List String
  firstRowText : Option String
  rows : List Row
deriving DecidableEq, Repr

/-- The semester cue search applied to one piece of (lowered) text, in the
source's order: 1st/first, then 2nd/second, then rain. -/
def cueOf (s : String) : Option String :=
  let t := lowerStr s
  if containsSub t "1st semester" || containsSub t "first semester" then
    some "first"
  else if containsSub t "2nd semester" || containsSub t "second semester" then
    some "second"
  else if containsSub t "rain semester" then some "rain"
  else none

/-- `_detect_table_semester`: previous-sibling texts, then table-header
texts, then the first row's text, then the positional fallback (table 0 is
`first`, table 1 is `second`, later tables are unclassified). -/
def detect_table_semester (t : TableModel) (table_index : Nat) : Option String :=
  match t.prevSiblingTexts.findSome? cueOf with
  | some s => some s
  | none =>
  match t.theadTexts.findSome? cueOf with
  | some s => some s
  | none =>
  match t.firstRowText.bind cueOf with
  | some s => some s
  | none =>
    if table_index = 0 then some "first"
    else if table_index = 1 then some "second"
    else none

/-- An accordion's `tab-content` div, reduced to its tables. -/
structure ContentDiv where
  tables : List TableModel
deriving DecidableEq, Repr

/-- Table selection of `_extract_courses_from_tables`: tables with class
`curriculum-table`, else all tables. -/
def selectTables (d : ContentDiv) : List TableModel :=
  let ct := d.tables.filter (·.curriculum)
  if ct = [] then d.tables else ct

/-- `courses_by_semester[semester] = []` (when absent) followed by
`courses_by_semester[semester].extend(courses)`. -/
def dictExtend (acc : Semesters) (sem : String) (cs : List Course) : Semesters :=
  match dictGet acc sem with
  | some old => dictInsert acc sem (old ++ cs)
  | none => acc ++ [(sem, cs)]

/-- The enumerated loop of `_extract_courses_from_tables`. -/
def extractTablesAux (acc : Semesters) (idx : Nat) : List TableModel → Semesters
  | [] => acc
  | t :: ts =>
    let acc' := match detect_table_semester t idx with
      | some sem => dictExtend acc sem (parse_table_courses t.rows)
      | none => acc
    extractTablesAux acc' (idx + 1) ts

/-- `_extract_courses_from_tables`. -/
def extract_courses_from_tables (d : ContentDiv) : Semesters :=
  extractTablesAux [] 0 (selectTables d)

/-- True when the next character does not extend a regex word (`\b` after a
match). -/
def boundaryAfter : List Char → Bool
  | [] => true
  | c :: _ => !isWordChar c

/-- The digits accepted by the level pattern `([12345])`. -/
def levelDigits : List Char := ['1', '2', '3', '4', '5']

/-- Attempt to match `([12345])00\s*level\b` at the head of an
already-lowercased character list, returning the captured digit. -/
def matchLevelAt : List Char → Option Char
  | d :: '0' :: '0' :: rest =>
    if d ∈ levelDigits then
      let r2 := rest.dropWhile Char.isWhitespace
      if ("level".toList).isPrefixOf r2 && boundaryAfter (r2.drop 5) then some d
      else none
    else none
  | _ => none

/-- `re.search(r'\b([12345])00\s*level\b', s, re.IGNORECASE)` on the lowered
text: scan left to right, trying the pattern at every word boundary. -/
def searchLevel (prev : Option Char) : List Char → Option Char
  | [] => none
  | c :: rest =>
    if (match prev with | none => true | some p => !isWordChar p) then
      match matchLevelAt (c :: rest) with
      | some d => some d
      | none => searchLevel (some c) rest
    else searchLevel (some c) rest

/-- The level label captured from an accordion title: `f"{match}00"`. -/
def levelOf (title_text : String) : Option String :=
  (searchLevel none (lowerStr title_text).toList).map
    (fun d => String.mk [d, '0', '0'])

/-- An accordion item: the text of its title element (if one was found) and
its content div (if present). -/
structure Accordion where
  titleText : Option String
  content : Option ContentDiv
deriving DecidableEq, Repr

/-- A department page, reduced to its accordion items. -/
abbrev DeptPage := List Accordion

/-- The extraction part of `scrape_department_page`, applied to a
successfully fetched and parsed page: accordions whose title matches the
level pattern contribute their non-empty semester maps under the level
label (dict assignment). -/
def scrape_department_page_core (page : DeptPage) : Levels :=
  page.foldl (fun acc accord =>
    match accord.titleText with
    | none => acc
    | some title_text =>
      match levelOf title_text with
      | none => acc
      | some level =>
        match accord.content with
        | none => acc
        | some content_div =>
          let courses_by_semester := extract_courses_from_tables content_div
          if courses_by_semester = [] then acc
          else dictInsert acc level courses_by_semester) []

/-- `scrape_department_page`: one single GET of the page (attempt 0 of the
network oracle); every failure — network error, non-2xx status raised by
`raise_for_status`, or any other exception — is caught and yields the empty
result `{}`; nothing is retried and no exception escapes. -/
def scrape_department_page (net : Nat → Option DeptPage) : Levels :=
  match net 0 with
  | none => []
  | some page => scrape_department_page_core page

/-- Modelled from the spec: the §4.1 fetch contract (`retries up to N times
... with a fixed delay between attempts`), which `scrape_department_page`
does not implement.  Tries attempts `0, 1, ...` of the oracle and returns the
first success within the allowed number of attempts. -/
def fetchWithRetrySpec (attempts : Nat) (net : Nat → Option DeptPage) :
    Option DeptPage :=
  (List.range attempts).findSome? net

/-- A department stub as discovered on the faculties page. -/
structure DeptStub where
  name : String
  code : String
  url : String
deriving DecidableEq, Repr

/-- The stub `scrape_faculties_page` builds for one department link: the code
is derived by `_extract_dept_code`. -/
def mkDeptStub (name url : String) : DeptStub :=
  ⟨name, extract_dept_code name url, url⟩

/-- Site-relative URL resolution in `scrape_all`. -/
def resolveUrl (base url : String) : String :=
  if strStartsWith url "/" then base ++ url else url

/-- The per-faculty aggregation loop of `scrape_all`:
`departments[dept_code] = {...}` (plain dict assignment) for every department
whose page yields a non-empty course map; `pageOf` abstracts
`scrape_department_page` per resolved URL. -/
def buildDepartments (pageOf : String → Levels) (base : String)
    (depts : List DeptStub) : Faculty :=
  depts.foldl (fun acc dept =>
    let dept_url := resolveUrl base dept.url
    let courses := pageOf dept_url
    if courses ≠ [] then
      dictInsert acc dept.code ⟨dept.name, dept_url, courses⟩
    else acc) []

/-! ### `run_update` -/

/-- The metadata dictionary of the persisted file (all its values are
strings: version, timestamp, source, scraper, content hash). -/
abbrev MetaData := List (String × String)

/-- The shape of the persisted full-data file. -/
abbrev CatalogFile := Catalog MetaData

/-- `old_data.get('metadata', {}).get('content_hash', '')`, with an absent or
unreadable file read as `{}` by `_load_json`. -/
def storedHash (stored : Option CatalogFile) : String :=
  match stored with
  | none => ""
  | some old_data => (dictGet old_data.metadata "content_hash").getD ""

/-- `run_update`, as a function of the stored file (`none` when missing or
unreadable — `_load_json` then returns `{}`) and the freshly scraped data.
Returns the `has_changes` result and the file contents after the run.
Changelog writing and logging are side effects outside the model;
`_detect_changes` is invoked only for the changelog and does not affect
either returned component. -/
def run_update (hash : String → String) (always_save_full_data : Bool)
    (stored : Option CatalogFile) (scraped : CatalogFile) :
    Bool × Option CatalogFile :=
  let old_hash := storedHash stored
  if scraped.faculties = [] then (false, stored)
  else
    let new_hash := calculate_hash hash scraped
    let has_changes := stored.isNone || !(old_hash == new_hash)
    if has_changes then
      (true, some { scraped with
        metadata := dictInsert scraped.metadata "content_hash" new_hash })
    else
      (false, if always_save_full_data then some scraped else stored)

/-! ### Claim-level predicates and closed forms -/

/-- Strict key order, used to show key-sorted serializations are canonical. -/
def keyLt {α : Type} (p q : String × α) : Prop := p.1 < q.1

instance {α : Type} : IsAntisymm (String × α) keyLt :=
  ⟨fun _ _ h h' => absurd (lt_trans h h') (lt_irrefl _)⟩

/-- Entries related pointwise: equal keys, `R`-related values. -/
def keyEqv {α : Type} (R : α → α → Prop) (p q : String × α) : Prop :=
  p.1 = q.1 ∧ R p.2 q.2

/-- Two mappings are equal up to key-order permutation: the first has
duplicate-free keys (Python dicts always do) and some reordering of it
matches the second pointwise with `R`-equivalent values. -/
def EqvMap {α : Type} (R : α → α → Prop) (l1 l2 : List (String × α)) : Prop :=
  (l1.map Prod.fst).Nodup ∧ ∃ l, l1.Perm l ∧ List.Forall₂ (keyEqv R) l l2

/-- Semester maps equal up to key order (course arrays compared exactly,
as JSON arrays are ordered). -/
def SemEqv : Semesters → Semesters → Prop := EqvMap Eq

/-- Level maps equal up to key order at both nesting levels. -/
def LevelsEqv : Levels → Levels → Prop := EqvMap SemEqv

/-- Department entries with equal scalar fields and equivalent courses. -/
def DeptEqv (a b : DeptEntry) : Prop :=
  a.name = b.name ∧ a.url = b.url ∧ LevelsEqv a.courses b.courses

/-- Faculties with equivalent department maps. -/
def FacEqv : Faculty → Faculty → Prop := EqvMap DeptEqv

/-- Equal `faculties` subtrees up to key-order permutation of every mapping. -/
def FacsEqv : Faculties → Faculties → Prop := EqvMap FacEqv

/-- Keys are duplicate-free at both nesting levels of a `courses` subtree. -/
def WfLevels (L : Levels) : Prop :=
  (L.map Prod.fst).Nodup ∧ ∀ p ∈ L, ((p.2 : Semesters).map Prod.fst).Nodup

instance (L : Levels) : Decidable (WfLevels L) := by
  unfold WfLevels; infer_instance

/-- A department of the new data that is absent from the old data. -/
def isNewDept (old_depts : List (String × FlatDept)) (p : String × FlatDept) :
    Bool :=
  dictGet old_depts p.1 == none

/-- A department present in both whose `courses` subtrees serialize
differently under `json.dumps(..., sort_keys=True)`. -/
def isModifiedDept (old_depts : List (String × FlatDept))
    (p : String × FlatDept) : Bool :=
  match dictGet old_depts p.1 with
  | some old_dept => !(dumpsLevels old_dept.courses == dumpsLevels p.2.courses)
  | none => false

/-- Positive part of the signed course-count difference (new minus old). -/
def posDelta (old_depts : List (String × FlatDept)) (p : String × FlatDept) :
    Nat :=
  match dictGet old_depts p.1 with
  | some old_dept =>
    ((deptCourseCount p.2.courses : Int) - deptCourseCount old_dept.courses).toNat
  | none => 0

/-- Absolute value of the negative part of the signed difference. -/
def negDelta (old_depts : List (String × FlatDept)) (p : String × FlatDept) :
    Nat :=
  match dictGet old_depts p.1 with
  | some old_dept =>
    ((deptCourseCount old_dept.courses : Int) - deptCourseCount p.2.courses).toNat
  | none => 0

/-- The flat departments of the new data absent from the old data. -/
def newOnlyDepts (old_depts new_depts : List (String × FlatDept)) :
    List (String × FlatDept) :=
  new_depts.filter (isNewDept old_depts)

/-- The flat departments of the new data present in both sides with
differing serializations. -/
def modifiedDeptsOf (old_depts new_depts : List (String × FlatDept)) :
    List (String × FlatDept) :=
  new_depts.filter (isModifiedDept old_depts)

/-- Closed form of `_detect_changes` past the first-run branch. -/
def detectClosed (old_depts new_depts : List (String × FlatDept)) : Changes :=
  { new_departments := (newOnlyDepts old_depts new_depts).map Prod.fst,
    modified_departments := (modifiedDeptsOf old_depts new_depts).map Prod.fst,
    new_courses :=
      ((newOnlyDepts old_depts new_depts).map
        (fun p => deptCourseCount p.2.courses)).sum
      + ((modifiedDeptsOf old_depts new_depts).map (posDelta old_depts)).sum,
    modified_courses :=
      ((modifiedDeptsOf old_depts new_depts).map (negDelta old_depts)).sum }

/-! ### Concrete fixtures for witnesses and counterexamples -/

/-- A one-course faculty used across witnesses. -/
def exFacA : Faculty :=
  [("CSC", ⟨"Computer Science", "u1", [("100", [("first", [⟨"T", 3⟩])])]⟩)]

/-- A second one-course faculty. -/
def exFacB : Faculty :=
  [("ECO", ⟨"Economics", "u2", [("200", [("second", [⟨"S", 2⟩])])]⟩)]

/-- A catalog whose metadata is a timestamp string. -/
def exCatMeta1 : Catalog String :=
  ⟨"2025-01-01T00:00:00", [("A", exFacA), ("B", exFacB)]⟩

/-- The same faculties with the top-level mapping reordered and metadata of a
different type altogether. -/
def exCatMeta2 : Catalog Nat :=
  ⟨42, [("B", exFacB), ("A", exFacA)]⟩

/-- An old catalog with one department holding one course. -/
def exOldCat : Catalog Unit :=
  ⟨(), [("F", [("CSC", ⟨"CS", "u", [("100", [("first", [⟨"A", 3⟩])])]⟩)])]⟩

/-- A new catalog where the same department holds two courses. -/
def exNewCat : Catalog Unit :=
  ⟨(), [("F", [("CSC", ⟨"CS", "u",
    [("100", [("first", [⟨"A", 3⟩, ⟨"B", 2⟩])])]⟩)])]⟩

/-- An empty previous catalog (first run). -/
def exEmptyCat : Catalog Unit := ⟨(), []⟩

/-- A page oracle returning one fixed non-empty course map for every URL. -/
def exOracle : String → Levels := fun _ => [("100", [("first", [⟨"X", 2⟩])])]

/-- A department page with one level accordion holding one course table. -/
def exPage : DeptPage :=
  [⟨some "100 Level", some ⟨[⟨true, [], [], none, [⟨true, ["Intro", "3"]⟩]⟩]⟩⟩]

/-- A network oracle failing on the first attempt and succeeding afterwards. -/
def exNet : Nat → Option DeptPage := fun i => if i = 0 then none else some exPage

/-- A table preceded by a comment naming the second semester. -/
def exTable2nd : TableModel := ⟨true, ["2nd Semester"], [], none, []⟩

/-- A table with no textual semester cue anywhere. -/
def exTableNoCue : TableModel :=
  ⟨true, [], [], none, [⟨true, ["Algebra", "4"]⟩]⟩

/-- The department stub discovery derives for "Mass Communication". -/
def exStub1 : DeptStub := mkDeptStub "Mass Communication" "/mass-communication"

/-- The stub for "Communication and Media Studies" — a distinct department
whose derived code collides with `exStub1`. -/
def exStub2 : DeptStub :=
  mkDeptStub "Communication and Media Studies" "/communication-and-media-studies"

/-- Scraped data without a `content_hash` in its metadata, as
`scrape_all` always produces it. -/
def exScraped : CatalogFile := ⟨[("version", "2.0.0")], [("F", exFacA)]⟩

/-- A stored file whose recorded hash matches `exScraped` under the constant
hash function used in the witness. -/
def exStored : CatalogFile := ⟨[("content_hash", "H")], [("F", exFacA)]⟩

/-! ### Dictionary lemmas -/

theorem dictGet_dictInsert {α : Type} (l : List (String × α)) (k k' : String)
    (v : α) :
    dictGet (dictInsert l k v) k' = if k' = k then some v else dictGet l k' := by
  induction l with
  | nil =>
    by_cases h : k' = k
    · subst h; simp [dictGet, dictInsert]
    · have h1 : ¬ k = k' := fun hh => h hh.symm
      simp [dictGet, dictInsert, h, h1]
  | cons p rest ih =>
    by_cases hp : p.1 = k
    · by_cases h : k' = k
      · subst h; simp [dictInsert, dictGet, hp]
      · have h1 : ¬ k = k' := fun hh => h hh.symm
        have h2 : ¬ p.1 = k' := fun hh => h1 (hp ▸ hh)
        simp [dictInsert, dictGet, hp, h, h1, h2]
    · by_cases hq : p.1 = k'
      · have h1 : ¬ k' = k := fun hh => hp (hq.trans hh)
        simp [dictInsert, dictGet, hp, hq, h1]
      · simp [dictInsert, dictGet, hp, hq, ih]

theorem mem_keys_dictInsert {α : Type} (l : List (String × α)) (k a : String)
    (v : α) :
    a ∈ (dictInsert l k v).map Prod.fst ↔ a ∈ l.map Prod.fst ∨ a = k := by
  induction l with
  | nil => simp [dictInsert]
  | cons p rest ih =>
    by_cases hp : p.1 = k
    · subst hp
      have hins : dictInsert (p :: rest) p.1 v = (p.1, v) :: rest := by
        simp [dictInsert]
      rw [hins]
      simp only [List.map_cons, List.mem_cons]
      tauto
    · have hins : dictInsert (p :: rest) k v = p :: dictInsert rest k v := by
        simp [dictInsert, hp]
      rw [hins]
      simp only [List.map_cons, List.mem_cons, ih]
      tauto

theorem nodup_keys_dictInsert {α : Type} {l : List (String × α)}
    (h : (l.map Prod.fst).Nodup) (k : String) (v : α) :
    ((dictInsert l k v).map Prod.fst).Nodup := by
  induction l with
  | nil => simp [dictInsert]
  | cons p rest ih =>
    simp only [List.map_cons, List.nodup_cons] at h
    by_cases hp : p.1 = k
    · subst hp
      simpa [dictInsert, List.nodup_cons] using h
    · have hrest := ih h.2
      simp only [dictInsert, if_neg hp, List.map_cons, List.nodup_cons]
      refine ⟨fun hmem => ?_, hrest⟩
      rcases (mem_keys_dictInsert rest k p.1 v).mp hmem with h1 | h1
      · exact h.1 h1
      · exact hp h1

theorem dictGet_eq_none_iff {α : Type} (l : List (String × α)) (k : String) :
    dictGet l k = none ↔ k ∉ l.map Prod.fst := by
  induction l with
  | nil => simp [dictGet]
  | cons p rest ih =>
    by_cases hp : p.1 = k
    · subst hp; simp [dictGet]
    · simp only [dictGet, if_neg hp, ih, List.map_cons, List.mem_cons]
      constructor
      · intro h
        rintro (h1 | h1)
        · exact hp h1.symm
        · exact h h1
      · intro h h1
        exact h (Or.inr h1)

theorem dictGet_mem {α : Type} {l : List (String × α)} {k : String} {v : α}
    (h : dictGet l k = some v) : (k, v) ∈ l := by
  induction l with
  | nil => simp [dictGet] at h
  | cons p rest ih =>
    by_cases hp : p.1 = k
    · simp only [dictGet, if_pos hp, Option.some.injEq] at h
      exact List.mem_cons.mpr (Or.inl (Prod.ext_iff.mpr ⟨hp, h⟩).symm)
    · simp only [dictGet, if_neg hp] at h
      exact List.mem_cons_of_mem _ (ih h)

theorem dictGet_of_mem_nodup {α : Type} {l : List (String × α)} {k : String}
    {v : α} (hnd : (l.map Prod.fst).Nodup) (h : (k, v) ∈ l) :
    dictGet l k = some v := by
  induction l with
  | nil => simp at h
  | cons p rest ih =>
    simp only [List.map_cons, List.nodup_cons] at hnd
    rcases List.mem_cons.mp h with h1 | h1
    · subst h1; simp [dictGet]
    · have hk : ¬ p.1 = k := by
        intro hpk
        have : p.1 ∈ rest.map Prod.fst := by
          rw [hpk]
          exact List.mem_map.mpr ⟨(k, v), h1, rfl⟩
        exact hnd.1 this
      simp [dictGet, hk, ih hnd.2 h1]

theorem dictGet_ne_none_of_mem {α : Type} {l : List (String × α)}
    {p : String × α} (h : p ∈ l) : dictGet l p.1 ≠ none := by
  rw [Ne, dictGet_eq_none_iff]
  simp only [not_not]
  exact List.mem_map.mpr ⟨p, h, rfl⟩

/-! ### Key-sorted serialization is canonical up to permutation -/

theorem orderedInsert_forall₂ {α : Type} {R : α → α → Prop}
    {a b : String × α} {l l' : List (String × α)} (hab : keyEqv R a b)
    (h : List.Forall₂ (keyEqv R) l l') :
    List.Forall₂ (keyEqv R) (List.orderedInsert keyLe a l)
      (List.orderedInsert keyLe b l') := by
  induction h with
  | nil => exact List.Forall₂.cons hab List.Forall₂.nil
  | @cons x y t t' hxy htail ih =>
    by_cases hle : keyLe a x
    · have hle' : keyLe b y := by
        unfold keyEqv at hab hxy
        unfold keyLe at hle ⊢
        rw [← hab.1, ← hxy.1]
        exact hle
      rw [List.orderedInsert, if_pos hle, List.orderedInsert, if_pos hle']
      exact List.Forall₂.cons hab (List.Forall₂.cons hxy htail)
    · have hle' : ¬ keyLe b y := by
        unfold keyEqv at hab hxy
        unfold keyLe at hle ⊢
        rw [← hab.1, ← hxy.1]
        exact hle
      rw [List.orderedInsert, if_neg hle, List.orderedInsert, if_neg hle']
      exact List.Forall₂.cons hxy ih

theorem sortEntries_forall₂ {α : Type} {R : α → α → Prop}
    {l l' : List (String × α)} (h : List.Forall₂ (keyEqv R) l l') :
    List.Forall₂ (keyEqv R) (sortEntries l) (sortEntries l') := by
  induction h with
  | nil => exact List.Forall₂.nil
  | cons hab _ ih =>
    simpa [sortEntries, List.insertionSort] using orderedInsert_forall₂ hab ih

theorem sorted_keyLt_of_sorted_keyLe {α : Type} {l : List (String × α)}
    (hs : List.Sorted keyLe l) (hnd : (l.map Prod.fst).Nodup) :
    List.Sorted keyLt l := by
  have hne : List.Pairwise (fun p q : String × α => p.1 ≠ q.1) l :=
    List.pairwise_map.mp hnd
  exact (hs.and hne).imp (fun h => lt_of_le_of_ne h.1 h.2)

theorem sortEntries_perm {α : Type} (l : List (String × α)) :
    (sortEntries l).Perm l :=
  List.perm_insertionSort keyLe l

theorem sortEntries_eq_of_perm {α : Type} {l1 l2 : List (String × α)}
    (h : l1.Perm l2) (hnd : (l1.map Prod.fst).Nodup) :
    sortEntries l1 = sortEntries l2 := by
  have hp : (sortEntries l1).Perm (sortEntries l2) :=
    (sortEntries_perm l1).trans (h.trans (sortEntries_perm l2).symm)
  have hnd1 : ((sortEntries l1).map Prod.fst).Nodup :=
    (((sortEntries_perm l1).map Prod.fst).nodup_iff).mpr hnd
  have hnd2 : ((sortEntries l2).map Prod.fst).Nodup :=
    ((hp.map Prod.fst).nodup_iff).mp hnd1
  exact List.eq_of_perm_of_sorted hp
    (sorted_keyLt_of_sorted_keyLe (List.sorted_insertionSort keyLe l1) hnd1)
    (sorted_keyLt_of_sorted_keyLe (List.sorted_insertionSort keyLe l2) hnd2)

theorem map_entry_eq_of_forall₂ {α : Type} {R : α → α → Prop}
    {f : α → String} (hf : ∀ a b, R a b → f a = f b)
    {l l' : List (String × α)} (h : List.Forall₂ (keyEqv R) l l') :
    l.map (fun p => jstr p.1 ++ ": " ++ f p.2)
      = l'.map (fun p => jstr p.1 ++ ": " ++ f p.2) := by
  induction h with
  | nil => rfl
  | cons hab _ ih =>
    simp only [List.map]
    rw [hab.1, hf _ _ hab.2, ih]

theorem dumpsObj_congr {α : Type} {R : α → α → Prop} {f : α → String}
    (hf : ∀ a b, R a b → f a = f b) {l1 l2 : List (String × α)}
    (h : EqvMap R l1 l2) : dumpsObj f l1 = dumpsObj f l2 := by
  obtain ⟨hnd, l, hperm, hfa⟩ := h
  unfold dumpsObj
  rw [sortEntries_eq_of_perm hperm hnd,
    map_entry_eq_of_forall₂ hf (sortEntries_forall₂ hfa)]

theorem dumpsSemesters_congr {s1 s2 : Semesters} (h : SemEqv s1 s2) :
    dumpsSemesters s1 = dumpsSemesters s2 :=
  dumpsObj_congr (fun _ _ hab => by rw [hab]) h

theorem dumpsLevels_congr {l1 l2 : Levels} (h : LevelsEqv l1 l2) :
    dumpsLevels l1 = dumpsLevels l2 :=
  dumpsObj_congr (fun _ _ hab => dumpsSemesters_congr hab) h

theorem dumpsDept_congr {d1 d2 : DeptEntry} (h : DeptEqv d1 d2) :
    dumpsDept d1 = dumpsDept d2 := by
  unfold dumpsDept
  rw [h.1, h.2.1, dumpsLevels_congr h.2.2]

theorem dumpsFaculty_congr {f1 f2 : Faculty} (h : FacEqv f1 f2) :
    dumpsFaculty f1 = dumpsFaculty f2 := by
  unfold dumpsFaculty
  rw [dumpsObj_congr (fun _ _ hab => dumpsDept_congr hab) h]

theorem dumpsFaculties_congr {fs1 fs2 : Faculties} (h : FacsEqv fs1 fs2) :
    dumpsFaculties fs1 = dumpsFaculties fs2 :=
  dumpsObj_congr (fun _ _ hab => dumpsFaculty_congr hab) h

theorem EqvMap_refl {α : Type} {R : α → α → Prop} {l : List (String × α)}
    (hnd : (l.map Prod.fst).Nodup) (hR : ∀ p ∈ l, R p.2 p.2) : EqvMap R l l :=
  ⟨hnd, l, List.Perm.refl l, List.forall₂_same.mpr (fun p hp => ⟨rfl, hR p hp⟩)⟩

theorem LevelsEqv_refl {L : Levels} (h : WfLevels L) : LevelsEqv L L :=
  EqvMap_refl h.1 (fun p hp => EqvMap_refl (h.2 p hp) (fun _ _ => rfl))

theorem FacEqv_refl {f : Faculty} (hnd : (f.map Prod.fst).Nodup)
    (h : ∀ p ∈ f, WfLevels p.2.courses) : FacEqv f f :=
  EqvMap_refl hnd (fun p hp => ⟨rfl, rfl, LevelsEqv_refl (h p hp)⟩)

/-- C2: catalogs with `faculties` subtrees equal up to key-order permutation
of their mappings — metadata arbitrary, even of different types — hash to the
same digest, for every digest function (in particular SHA-256); repeated
calls on one catalog are the reflexive instance. -/
theorem calculate_hash_eqv {α β : Type} (hash : String → String)
    (c1 : Catalog α) (c2 : Catalog β) (h : FacsEqv c1.faculties c2.faculties) :
    calculate_hash hash c1 = calculate_hash hash c2 := by
  unfold calculate_hash
  rw [dumpsFaculties_congr h]

/-- C2 witness: hashes agree on two concrete catalogs whose faculty mappings
are reorderings of each other and whose metadata differ in type and value. -/
theorem calculate_hash_eqv_witness :
    calculate_hash (fun s => s) exCatMeta1 = calculate_hash (fun s => s) exCatMeta2 := by
  refine calculate_hash_eqv (fun s => s) exCatMeta1 exCatMeta2
    ⟨by decide, [("B", exFacB), ("A", exFacA)], ?_, ?_⟩
  · exact List.Perm.swap ("B", exFacB) ("A", exFacA) []
  · refine List.forall₂_same.mpr (fun p hp => ⟨rfl, ?_⟩)
    fin_cases hp
    · exact FacEqv_refl (by decide) (by decide)
    · exact FacEqv_refl (by decide) (by decide)

/-! ### Closed form of `_detect_changes` -/

theorem foldl_newDeptStep (old : List (String × FlatDept))
    (l : List (String × FlatDept)) (acc : Changes) :
    l.foldl (newDeptStep old) acc =
      { acc with
        new_departments :=
          acc.new_departments ++ (l.filter (isNewDept old)).map Prod.fst,
        new_courses := acc.new_courses
          + ((l.filter (isNewDept old)).map
              (fun p => deptCourseCount p.2.courses)).sum } := by
  induction l generalizing acc with
  | nil => simp
  | cons p rest ih =>
    rw [List.foldl_cons, ih]
    by_cases h : dictGet old p.1 = none
    · have hb : isNewDept old p = true := by simp [isNewDept, h]
      simp [newDeptStep, h, List.filter_cons, hb, Nat.add_assoc]
    · have hb : isNewDept old p = false := by simp [isNewDept, h]
      simp [newDeptStep, h, List.filter_cons, hb]

theorem foldl_modDeptStep (old : List (String × FlatDept))
    (l : List (String × FlatDept)) (acc : Changes)
    (hguard : ∀ p ∈ l, dictGet old p.1 ≠ none → p.1 ∉ acc.new_departments) :
    l.foldl (modDeptStep old) acc =
      { acc with
        modified_departments := acc.modified_departments
          ++ (l.filter (isModifiedDept old)).map Prod.fst,
        new_courses := acc.new_courses
          + ((l.filter (isModifiedDept old)).map (posDelta old)).sum,
        modified_courses := acc.modified_courses
          + ((l.filter (isModifiedDept old)).map (negDelta old)).sum } := by
  induction l generalizing acc with
  | nil => simp
  | cons p rest ih =>
    rw [List.foldl_cons]
    cases hdg : dictGet old p.1 with
    | none =>
      have hstep : modDeptStep old acc p = acc := by
        simp [modDeptStep, hdg]
      have hb : isModifiedDept old p = false := by
        simp [isModifiedDept, hdg]
      rw [hstep, ih acc (fun q hq => hguard q (List.mem_cons_of_mem _ hq))]
      simp [List.filter_cons, hb]
    | some od =>
      have hpin : p.1 ∉ acc.new_departments :=
        hguard p (List.mem_cons_self _ _) (by simp [hdg])
      by_cases heq : dumpsLevels od.courses = dumpsLevels p.2.courses
      · have hstep : modDeptStep old acc p = acc := by
          simp [modDeptStep, hdg, hpin, heq]
        have hb : isModifiedDept old p = false := by
          simp [isModifiedDept, hdg, heq]
        rw [hstep, ih acc (fun q hq => hguard q (List.mem_cons_of_mem _ hq))]
        simp [List.filter_cons, hb]
      · have hstep : modDeptStep old acc p =
            { acc with
              modified_departments := acc.modified_departments ++ [p.1],
              new_courses := acc.new_courses + posDelta old p,
              modified_courses := acc.modified_courses + negDelta old p } := by
          simp only [modDeptStep, hdg, posDelta, negDelta]
          rw [if_neg hpin, if_neg heq]
          rcases lt_trichotomy (0 : Int)
            ((deptCourseCount p.2.courses : Int)
              - deptCourseCount od.courses) with hlt | heq0 | hgt
          · rw [if_pos hlt, if_neg (by omega)]
            simp [Changes.mk.injEq]
            omega
          · rw [if_neg (by omega), if_neg (by omega)]
            simp [Changes.mk.injEq]
            omega
          · rw [if_neg (by omega), if_pos (by omega)]
            simp [Changes.mk.injEq]
            omega
        have hb : isModifiedDept old p = true := by
          simp [isModifiedDept, hdg, heq]
        rw [hstep]
        rw [ih { acc with
              modified_departments := acc.modified_departments ++ [p.1],
              new_courses := acc.new_courses + posDelta old p,
              modified_courses := acc.modified_courses + negDelta old p }
            (fun q hq => hguard q (List.mem_cons_of_mem _ hq))]
        simp [List.filter_cons, hb, Nat.add_assoc, List.append_assoc]

theorem get_flat_depts_nodup {α : Type} (data : Catalog α) :
    ((get_flat_depts data).map Prod.fst).Nodup := by
  have hin : ∀ (dl : Faculty) (acc2 : List (String × FlatDept)),
      (acc2.map Prod.fst).Nodup →
      ((dl.foldl (fun a d => dictInsert a d.1 ⟨d.2.name, d.2.courses⟩)
        acc2).map Prod.fst).Nodup := by
    intro dl
    induction dl with
    | nil => exact fun _ h2 => h2
    | cons d drest dih => exact fun acc2 h2 => dih _ (nodup_keys_dictInsert h2 _ _)
  have hout : ∀ (fs : Faculties) (acc : List (String × FlatDept)),
      (acc.map Prod.fst).Nodup →
      ((fs.foldl
        (fun acc fac =>
          fac.2.foldl
            (fun acc2 dept => dictInsert acc2 dept.1 ⟨dept.2.name, dept.2.courses⟩)
            acc)
        acc).map Prod.fst).Nodup := by
    intro fs
    induction fs with
    | nil => exact fun _ h => h
    | cons f rest ih => exact fun acc h => ih _ (hin f.2 acc h)
  exact hout data.faculties [] (by simp)

theorem detect_changes_eq_closed {α β : Type} (flag : Bool)
    (old_data : Catalog α) (new_data : Catalog β)
    (h : get_flat_depts old_data ≠ []) :
    detect_changes flag old_data new_data
      = detectClosed (get_flat_depts old_data) (get_flat_depts new_data) := by
  unfold detect_changes
  rw [if_neg h]
  rw [foldl_newDeptStep]
  have hguard : ∀ p ∈ get_flat_depts new_data,
      dictGet (get_flat_depts old_data) p.1 ≠ none →
      p.1 ∉ (([] : List String)
        ++ ((get_flat_depts new_data).filter
            (isNewDept (get_flat_depts old_data))).map Prod.fst) := by
    intro p _ hne hmem
    simp only [List.nil_append] at hmem
    obtain ⟨q, hq, hq1⟩ := List.mem_map.mp hmem
    have hqf := (List.mem_filter.mp hq).2
    simp only [isNewDept, beq_iff_eq] at hqf
    rw [hq1] at hqf
    exact hne hqf
  rw [foldl_modDeptStep _ _ _ hguard]
  unfold detectClosed newOnlyDepts modifiedDeptsOf
  simp

/-- C8: running the change detector with the same catalog as old and new data
yields an entirely empty diff: no new departments, no modified departments,
and both counters zero — for every catalog and either setting of
`CREATE_INITIAL_CHANGELOG`. -/
theorem detect_changes_self {α : Type} (flag : Bool) (c : Catalog α) :
    detect_changes flag c c = ⟨[], [], 0, 0⟩ := by
  by_cases h : get_flat_depts c = []
  · unfold detect_changes
    rw [if_pos h, h]
    cases flag <;> simp
  · rw [detect_changes_eq_closed flag c c h]
    have hnd := get_flat_depts_nodup c
    have h1 : (get_flat_depts c).filter (isNewDept (get_flat_depts c)) = [] := by
      rw [List.filter_eq_nil_iff]
      intro p hp
      simp only [isNewDept, beq_iff_eq]
      exact dictGet_ne_none_of_mem hp
    have h2 : (get_flat_depts c).filter (isModifiedDept (get_flat_depts c)) = [] := by
      rw [List.filter_eq_nil_iff]
      intro p hp
      have hpt : (p.1, p.2) ∈ get_flat_depts c := by rw [Prod.mk.eta]; exact hp
      have hg : dictGet (get_flat_depts c) p.1 = some p.2 :=
        dictGet_of_mem_nodup hnd hpt
      simp [isModifiedDept, hg]
    unfold detectClosed newOnlyDepts modifiedDeptsOf
    rw [h1, h2]
    rfl

/-- C1 counterexample: with `CREATE_INITIAL_CHANGELOG` disabled, a first run
against a catalog containing a department marks nothing as new and reports a
zero new-course count, contradicting the claim's unconditional "marks every
department of C as new" and "newCourseCount == totalCourses(C)". -/
theorem detect_changes_first_run_counterexample :
    detect_changes false exEmptyCat exNewCat = ⟨[], [], 0, 0⟩ ∧
    (get_flat_depts exNewCat).map Prod.fst = ["CSC"] ∧
    deptCourseCount [("100", [("first", [⟨"A", 3⟩, ⟨"B", 2⟩])])] = 2 := by
  refine ⟨by decide, by decide, by decide⟩

/-- C1 (amended): when the previous data holds no departments, the detector
returns, **if `CREATE_INITIAL_CHANGELOG` is enabled**, every department of
the new data's flattened department map as new together with its total course
count and an empty modified set; with the flag disabled it returns an
entirely empty diff. -/
theorem detect_changes_first_run {α β : Type} (flag : Bool)
    (old_data : Catalog α) (new_data : Catalog β)
    (h : get_flat_depts old_data = []) :
    detect_changes flag old_data new_data =
      if flag then
        { new_departments := (get_flat_depts new_data).map Prod.fst,
          modified_departments := [],
          new_courses := ((get_flat_depts new_data).map
            (fun p => deptCourseCount p.2.courses)).sum,
          modified_courses := 0 }
      else ⟨[], [], 0, 0⟩ := by
  unfold detect_changes
  rw [if_pos h]

/-- C1 witness: the amended theorem applied to an empty previous catalog and
a one-department, two-course catalog. -/
theorem detect_changes_first_run_witness :
    detect_changes true exEmptyCat exNewCat =
      { new_departments := ["CSC"], modified_departments := [],
        new_courses := 2, modified_courses := 0 } :=
  (detect_changes_first_run true exEmptyCat exNewCat (by decide)).trans (by decide)

/-- C3: for a department code present in both the old and the new flattened
data, the detection result contains the code among the modified departments
exactly when the key-sorted serializations of its `courses` subtrees differ
(and never among the new departments); the two counters equal the sums, over
departments present in both sides with differing serializations, of the
positive part of the signed count difference (new minus old) and of the
absolute value of its negative part respectively — so a department with
equal serializations contributes to neither set nor counter. -/
theorem detect_changes_modified {α β : Type} (flag : Bool)
    (old_data : Catalog α) (new_data : Catalog β) (code : String)
    (od nd : FlatDept)
    (hod : dictGet (get_flat_depts old_data) code = some od)
    (hnd : dictGet (get_flat_depts new_data) code = some nd) :
    (dumpsLevels od.courses ≠ dumpsLevels nd.courses ↔
      code ∈ (detect_changes flag old_data new_data).modified_departments) ∧
    code ∉ (detect_changes flag old_data new_data).new_departments ∧
    (detect_changes flag old_data new_data).new_courses =
      ((newOnlyDepts (get_flat_depts old_data) (get_flat_depts new_data)).map
        (fun p => deptCourseCount p.2.courses)).sum
      + ((modifiedDeptsOf (get_flat_depts old_data) (get_flat_depts new_data)).map
          (posDelta (get_flat_depts old_data))).sum ∧
    (detect_changes flag old_data new_data).modified_courses =
      ((modifiedDeptsOf (get_flat_depts old_data) (get_flat_depts new_data)).map
        (negDelta (get_flat_depts old_data))).sum ∧
    posDelta (get_flat_depts old_data) (code, nd) =
      ((deptCourseCount nd.courses : Int) - deptCourseCount od.courses).toNat ∧
    negDelta (get_flat_depts old_data) (code, nd) =
      ((deptCourseCount od.courses : Int) - deptCourseCount nd.courses).toNat := by
  have hne : get_flat_depts old_data ≠ [] := by
    intro h
    rw [h] at hod
    simp [dictGet] at hod
  rw [detect_changes_eq_closed flag old_data new_data hne]
  have hndnew := get_flat_depts_nodup new_data
  have hmemnd : (code, nd) ∈ get_flat_depts new_data := dictGet_mem hnd
  refine ⟨?_, ?_, rfl, rfl, by simp [posDelta, hod], by simp [negDelta, hod]⟩
  · constructor
    · intro hdiff
      have hb : isModifiedDept (get_flat_depts old_data) (code, nd) = true := by
        simp [isModifiedDept, hod, hdiff]
      exact List.mem_map.mpr
        ⟨(code, nd), List.mem_filter.mpr ⟨hmemnd, hb⟩, rfl⟩
    · intro hmem hdeq
      obtain ⟨q, hq, hq1⟩ := List.mem_map.mp hmem
      have hqmem := (List.mem_filter.mp hq).1
      have hqb := (List.mem_filter.mp hq).2
      have hqt : (q.1, q.2) ∈ get_flat_depts new_data := by
        rw [Prod.mk.eta]; exact hqmem
      have hgq : dictGet (get_flat_depts new_data) q.1 = some q.2 :=
        dictGet_of_mem_nodup hndnew hqt
      rw [hq1, hnd] at hgq
      have hq2 : q.2 = nd := by
        injection hgq with h'
        exact h'.symm
      unfold isModifiedDept at hqb
      rw [hq1, hod] at hqb
      simp [hq2, hdeq] at hqb
  · intro hmem
    obtain ⟨q, hq, hq1⟩ := List.mem_map.mp hmem
    have hqb := (List.mem_filter.mp hq).2
    simp only [isNewDept, beq_iff_eq] at hqb
    rw [hq1, hod] at hqb
    exact Option.noConfusion hqb

/-- C3 witness: the theorem applied to concrete one-department catalogs
where the department grows from one to two courses. -/
theorem detect_changes_modified_witness :
    "CSC" ∈ (detect_changes true exOldCat exNewCat).modified_departments ∧
    "CSC" ∉ (detect_changes true exOldCat exNewCat).new_departments ∧
    (detect_changes true exOldCat exNewCat).new_courses = 1 ∧
    (detect_changes true exOldCat exNewCat).modified_courses = 0 := by
  have h := detect_changes_modified true exOldCat exNewCat "CSC"
    ⟨"CS", [("100", [("first", [⟨"A", 3⟩])])]⟩
    ⟨"CS", [("100", [("first", [⟨"A", 3⟩, ⟨"B", 2⟩])])]⟩
    (by decide) (by decide)
  exact ⟨h.1.mp (by decide), h.2.1, h.2.2.1.trans (by decide),
    h.2.2.2.1.trans (by decide)⟩

/-! ### Course-row parsing (C4) -/

/-- C4 counterexample: a table row whose units cell parses to zero is stored
with `creditUnits = 0`, contradicting the claim that such a row is dropped
and that every stored course has strictly positive units. -/
theorem parse_table_courses_zero_counterexample :
    parse_table_courses [⟨true, ["Algebra", "0"]⟩] = [⟨"Algebra", 0⟩] := by
  decide

/-- C4 (amended): every stored course comes from a row whose units cell
contains an integer substring, with `creditUnits` equal to the value of the
first such run (which may be zero — a zero-valued cell is stored, not
dropped) and a non-empty title; rows with no integer substring in the units
cell, or an empty title, are dropped. -/
theorem parse_table_courses_sound (rows : List Row) (c : Course)
    (h : c ∈ parse_table_courses rows) :
    c.title ≠ "" ∧ ∃ r ∈ rows, ∃ units_text rest,
      r.cells = c.title :: units_text :: rest ∧
      firstIntSub units_text = some c.creditUnits := by
  have hmem : ∃ r ∈ rows, parseRow r = some c := by
    simp only [parse_table_courses] at h
    by_cases hacc : rows.filter (fun r => r.accordionHeader) = []
    · rw [if_pos hacc] at h
      rcases List.mem_filterMap.mp h with ⟨r, hr, hf⟩
      exact ⟨r, List.mem_of_mem_filter hr, hf⟩
    · rw [if_neg hacc] at h
      rcases List.mem_filterMap.mp h with ⟨r, hr, hf⟩
      exact ⟨r, List.mem_of_mem_filter hr, hf⟩
  rcases hmem with ⟨r, hrr, hf⟩
  unfold parseRow at hf
  split at hf
  · rename_i title units_text rest heq
    split at hf
    · rename_i n hfi
      split at hf
      · rename_i htitle
        injection hf with hc
        subst hc
        exact ⟨htitle, r, hrr, units_text, rest, heq, hfi⟩
      · exact Option.noConfusion hf
    · exact Option.noConfusion hf
  · exact Option.noConfusion hf

/-- C4 witness: the amended theorem applied to a concrete fallback row. -/
theorem parse_table_courses_sound_witness :
    (⟨"Intro to Programming", 3⟩ : Course).title ≠ "" ∧
    ∃ r ∈ [(⟨false, ["Intro to Programming", "3 Units"]⟩ : Row)],
      ∃ units_text rest,
        r.cells = (⟨"Intro to Programming", 3⟩ : Course).title
          :: units_text :: rest ∧
        firstIntSub units_text
          = some (⟨"Intro to Programming", 3⟩ : Course).creditUnits :=
  parse_table_courses_sound [⟨false, ["Intro to Programming", "3 Units"]⟩]
    ⟨"Intro to Programming", 3⟩ (by decide)

/-! ### Department aggregation (C5) -/

theorem find?_singleton {α : Type} (p : α → Bool) (a : α) :
    List.find? p [a] = if p a then some a else none := by
  by_cases h : p a = true
  · rw [List.find?_cons_of_pos _ h, if_pos h]
  · rw [List.find?_cons_of_neg _ h, if_neg h]
    rfl

theorem buildDepartments_foldl_get (pageOf : String → Levels) (base : String)
    (depts : List DeptStub) (acc : Faculty) (code : String) :
    dictGet
      (depts.foldl (fun acc dept =>
        let dept_url := resolveUrl base dept.url
        let courses := pageOf dept_url
        if courses ≠ [] then
          dictInsert acc dept.code ⟨dept.name, dept_url, courses⟩
        else acc) acc) code =
    ((depts.reverse.find? (fun d => d.code == code
        && decide (pageOf (resolveUrl base d.url) ≠ []))).map
      (fun d => (⟨d.name, resolveUrl base d.url,
        pageOf (resolveUrl base d.url)⟩ : DeptEntry))).or (dictGet acc code) := by
  induction depts generalizing acc with
  | nil => simp
  | cons d rest ih =>
    rw [List.foldl_cons, ih, List.reverse_cons, List.find?_append]
    cases hf : rest.reverse.find? (fun d => d.code == code
        && decide (pageOf (resolveUrl base d.url) ≠ [])) with
    | some x => simp
    | none =>
      simp only [Option.map_none', Option.none_or]
      rw [find?_singleton]
      by_cases hc : pageOf (resolveUrl base d.url) = []
      · rw [if_neg (fun hcon => hcon hc)]
        simp [hc]
      · rw [if_pos hc, dictGet_dictInsert]
        by_cases he : code = d.code
        · simp [he, hc]
        · have hne : ¬ d.code = code := fun hh => he hh.symm
          simp [he, hne, hc]

/-- C5 counterexample: "Mass Communication" and "Communication and Media
Studies" are distinct departments that both derive the code `MAC`; after
aggregation the departments dict holds a single `MAC` entry carrying the
second department's data — the first entry was silently overwritten, with no
acronym fallback or "unknown" marker. -/
theorem buildDepartments_overwrite_counterexample :
    exStub1.code = "MAC" ∧ exStub2.code = "MAC" ∧ exStub1.name ≠ exStub2.name ∧
    buildDepartments exOracle "https://miva.edu.ng" [exStub1, exStub2] =
      [("MAC", ⟨"Communication and Media Studies",
        "https://miva.edu.ng/communication-and-media-studies",
        [("100", [("first", [⟨"X", 2⟩])])]⟩)] :=
  ⟨by decide, by decide, by decide, by decide⟩

/-- C5 (amended): the produced departments mapping always has duplicate-free
keys, but code collisions are resolved by overwrite rather than by a
generated acronym or "unknown" marker: looking up a code returns the entry of
the last department (in iteration order) that derived this code and whose
page yielded courses. -/
theorem buildDepartments_last_wins (pageOf : String → Levels) (base : String)
    (depts : List DeptStub) :
    ((buildDepartments pageOf base depts).map Prod.fst).Nodup ∧
    ∀ code : String,
      dictGet (buildDepartments pageOf base depts) code =
        (depts.reverse.find? (fun d => d.code == code
            && decide (pageOf (resolveUrl base d.url) ≠ []))).map
          (fun d => (⟨d.name, resolveUrl base d.url,
            pageOf (resolveUrl base d.url)⟩ : DeptEntry)) := by
  constructor
  · have haux : ∀ (dl : List DeptStub) (acc : Faculty),
        (acc.map Prod.fst).Nodup →
        ((dl.foldl (fun acc dept =>
          let dept_url := resolveUrl base dept.url
          let courses := pageOf dept_url
          if courses ≠ [] then
            dictInsert acc dept.code ⟨dept.name, dept_url, courses⟩
          else acc) acc).map Prod.fst).Nodup := by
      intro dl
      induction dl with
      | nil => exact fun _ h => h
      | cons d rest ih =>
        intro acc h
        refine ih _ ?_
        by_cases hc : pageOf (resolveUrl base d.url) ≠ []
        · simpa [hc] using nodup_keys_dictInsert h d.code
            ⟨d.name, resolveUrl base d.url, pageOf (resolveUrl base d.url)⟩
        · simpa [hc] using h
    exact haux depts [] (by simp)
  · intro code
    unfold buildDepartments
    rw [buildDepartments_foldl_get]
    simp [dictGet]

/-! ### Fetch behavior (C6) -/

/-- C6 counterexample: a run where the first attempt fails transiently and a
second attempt would succeed; with `MAX_RETRIES = 3` configured, the claimed
retry behavior recovers the page and its courses, but
`scrape_department_page` performs no retry and yields the empty
per-department result. -/
theorem scrape_department_page_no_retry_counterexample :
    scrape_department_page exNet = [] ∧
    fetchWithRetrySpec 3 exNet = some exPage ∧
    scrape_department_page_core exPage
      = [("100", [("first", [⟨"Intro", 3⟩])])] :=
  ⟨rfl, by decide, by decide⟩

/-- C6 (amended): each department page is fetched exactly once — the result
depends only on attempt 0 of the network oracle — and any transient failure
(network error or non-2xx status) immediately yields the empty
per-department result with no exception propagating; `MAX_RETRIES` and
`RETRY_DELAY` are never consulted. -/
theorem scrape_department_page_single_attempt
    (net net' : Nat → Option DeptPage) :
    (net 0 = none → scrape_department_page net = []) ∧
    (net 0 = net' 0 →
      scrape_department_page net = scrape_department_page net') := by
  constructor
  · intro h
    unfold scrape_department_page
    rw [h]
  · intro h
    unfold scrape_department_page
    rw [h]

/-- C6 witness: the amended theorem applied to the failing oracle. -/
theorem scrape_department_page_single_attempt_witness :
    scrape_department_page exNet = [] ∧
    scrape_department_page exNet
      = scrape_department_page (fun _ => none) :=
  ⟨(scrape_department_page_single_attempt exNet exNet).1 rfl,
    (scrape_department_page_single_attempt exNet (fun _ => none)).2 rfl⟩

/-! ### Semester classification (C7) -/

/-- C7: semester classification follows the priority chain — a cue in a
preceding sibling or comment wins over everything including position, then
header-row text, then first-row text; with no textual cue anywhere the first
table classifies as `first`, the second as `second`, and any further table is
unclassified; unclassified tables are skipped by the extraction loop, so
their courses are discarded from the result. -/
theorem detect_table_semester_priority (t : TableModel) (idx : Nat) :
    (∀ s, t.prevSiblingTexts.findSome? cueOf = some s →
      detect_table_semester t idx = some s) ∧
    (t.prevSiblingTexts.findSome? cueOf = none →
      ∀ s, t.theadTexts.findSome? cueOf = some s →
        detect_table_semester t idx = some s) ∧
    (t.prevSiblingTexts.findSome? cueOf = none →
      t.theadTexts.findSome? cueOf = none →
      ∀ s, t.firstRowText.bind cueOf = some s →
        detect_table_semester t idx = some s) ∧
    (t.prevSiblingTexts.findSome? cueOf = none →
      t.theadTexts.findSome? cueOf = none →
      t.firstRowText.bind cueOf = none →
      detect_table_semester t idx =
        if idx = 0 then some "first"
        else if idx = 1 then some "second" else none) ∧
    (∀ (acc : Semesters) (i : Nat) (ts : List TableModel), 2 ≤ i →
      (∀ tb ∈ ts, tb.prevSiblingTexts.findSome? cueOf = none ∧
        tb.theadTexts.findSome? cueOf = none ∧
        tb.firstRowText.bind cueOf = none) →
      extractTablesAux acc i ts = acc) := by
  refine ⟨?_, ?_, ?_, ?_, ?_⟩
  · intro s h
    unfold detect_table_semester
    rw [h]
  · intro h1 s h
    unfold detect_table_semester
    rw [h1, h]
  · intro h1 h2 s h
    unfold detect_table_semester
    rw [h1, h2, h]
  · intro h1 h2 h3
    unfold detect_table_semester
    rw [h1, h2, h3]
  · intro acc i ts
    induction ts generalizing acc i with
    | nil => intro _ _; rfl
    | cons tb rest ih =>
      intro hi hall
      have hcue := hall tb (List.mem_cons_self _ _)
      have hdet : detect_table_semester tb i = none := by
        unfold detect_table_semester
        rw [hcue.1, hcue.2.1, hcue.2.2]
        rw [if_neg (by omega), if_neg (by omega)]
      unfold extractTablesAux
      rw [hdet]
      exact ih acc (i + 1) (by omega)
        (fun tb' htb' => hall tb' (List.mem_cons_of_mem _ htb'))

/-- C7 witness: a comment cue beats position 0; positional fallback labels
tables 0 and 1 and discards table 2; the loop keeps its accumulator across a
cueless table at index 2. -/
theorem detect_table_semester_priority_witness :
    detect_table_semester exTable2nd 0 = some "second" ∧
    detect_table_semester exTableNoCue 0 = some "first" ∧
    detect_table_semester exTableNoCue 1 = some "second" ∧
    detect_table_semester exTableNoCue 2 = none ∧
    extractTablesAux [("first", [⟨"Algebra", 4⟩])] 2 [exTableNoCue]
      = [("first", [⟨"Algebra", 4⟩])] := by
  refine ⟨(detect_table_semester_priority exTable2nd 0).1 "second" (by decide),
    ((detect_table_semester_priority exTableNoCue 0).2.2.2.1 rfl rfl rfl).trans
      (by decide),
    ((detect_table_semester_priority exTableNoCue 1).2.2.2.1 rfl rfl rfl).trans
      (by decide),
    ((detect_table_semester_priority exTableNoCue 2).2.2.2.1 rfl rfl rfl).trans
      (by decide),
    (detect_table_semester_priority exTableNoCue 0).2.2.2.2
      [("first", [⟨"Algebra", 4⟩])] 2 [exTableNoCue] (by omega)
      (fun tb htb => ?_)⟩
  have : tb = exTableNoCue := by
    simpa using htb
  subst this
  exact ⟨rfl, rfl, rfl⟩

/-! ### Department-code derivation (C9) -/

theorem find?_codes_length {f : String × String → Bool} {p : String × String}
    (h : DEPARTMENT_CODES.find? f = some p) : 0 < p.2.length := by
  have hp := List.mem_of_find?_eq_some h
  have hall : ∀ q ∈ DEPARTMENT_CODES, 0 < q.2.length := by decide
  exact hall p hp

/-- C9: department-code derivation is a total, deterministic function (a
plain Lean function of the name and URL, defined by the four-stage fallback
of the source: name table, URL table, acronym, `"UNK"`), and it returns a
non-empty code for every name and URL. -/
theorem extract_dept_code_nonempty (dept_name url : String)
    (h : dept_name ≠ "") : 0 < (extract_dept_code dept_name url).length := by
  have hacr : ¬ capWordsAux none dept_name.data = [] →
      0 < (String.mk (((capWordsAux none dept_name.data).take 3).map
        (fun w => w.1.toUpper))).length := by
    intro hw
    have hlen : 0 < (capWordsAux none dept_name.data).length :=
      List.length_pos.mpr hw
    simp only [String.mk, String.length, List.length_map, List.length_take]
    omega
  cases h1 : DEPARTMENT_CODES.find?
      (fun p => containsSub (lowerStr dept_name) p.1) with
  | some p =>
    simpa [extract_dept_code, h1] using find?_codes_length h1
  | none =>
    by_cases hurl : url = ""
    · by_cases hw : capWordsAux none dept_name.data = []
      · simp only [extract_dept_code, h1, hurl, hw]
        simp [hw]
        decide
      · simpa [extract_dept_code, h1, hurl, hw] using hacr hw
    · cases h2 : DEPARTMENT_CODES.find?
          (fun p => containsSub (lowerStr url) (hyphenate p.1)) with
      | some p =>
        simpa [extract_dept_code, h1, hurl, h2] using find?_codes_length h2
      | none =>
        by_cases hw : capWordsAux none dept_name.data = []
        · simp only [extract_dept_code, h1, hurl, h2, hw]
          simp [hw]
          decide
        · simpa [extract_dept_code, h1, hurl, h2, hw] using hacr hw

/-- C9 witness: a name outside the code table exercises the acronym path. -/
theorem extract_dept_code_nonempty_witness :
    0 < (extract_dept_code "Philosophy" "").length :=
  extract_dept_code_nonempty "Philosophy" "" (by decide)

/-! ### The update driver (C10) -/

/-- C10: `run_update` adds `content_hash` to the saved metadata only on runs
reporting changes; a no-change run under `ALWAYS_SAVE_FULL_DATA` saves the
freshly scraped catalog, whose metadata lacks `content_hash`, so the
immediately following run reads an empty old hash and — the digest of the
faculties serialization being non-empty — reports `has_changes = true` even
when the scraped faculties content is identical. -/
theorem run_update_hash_only_on_change (hash : String → String)
    (hhash : ∀ s, hash s ≠ "") (always_save : Bool)
    (stored : Option CatalogFile) (scraped scraped2 : CatalogFile)
    (hfac : scraped.faculties ≠ [])
    (hnoh : dictGet scraped.metadata "content_hash" = none)
    (hfac2 : scraped2.faculties = scraped.faculties) :
    ((run_update hash always_save stored scraped).1 = true →
      ∃ f, (run_update hash always_save stored scraped).2 = some f ∧
        dictGet f.metadata "content_hash"
          = some (calculate_hash hash scraped)) ∧
    ((run_update hash true stored scraped).1 = false →
      (run_update hash true stored scraped).2 = some scraped ∧
      (run_update hash true ((run_update hash true stored scraped).2)
        scraped2).1 = true) := by
  have hfac2' : scraped2.faculties ≠ [] := by
    rw [hfac2]; exact hfac
  have hne : calculate_hash hash scraped2 ≠ "" := hhash _
  have hb : (("" : String) == calculate_hash hash scraped2) = false := by
    rw [beq_eq_false_iff_ne]
    exact fun hh => hne hh.symm
  have hrun2 : (run_update hash true (some scraped) scraped2).1 = true := by
    simp [run_update, hfac2', storedHash, hnoh, hb]
  constructor
  · intro h1
    cases hch : (stored.isNone
        || !(storedHash stored == calculate_hash hash scraped)) with
    | true =>
      refine ⟨(⟨dictInsert scraped.metadata "content_hash"
          (calculate_hash hash scraped), scraped.faculties⟩ : CatalogFile),
        ?_, ?_⟩
      · simp [run_update, hfac, hch]
      · simp [dictGet_dictInsert]
    | false =>
      exfalso
      have hfalse : (run_update hash always_save stored scraped).1 = false := by
        simp [run_update, hfac, hch]
      rw [h1] at hfalse
      exact Bool.noConfusion hfalse
  · intro h1
    cases hch : (stored.isNone
        || !(storedHash stored == calculate_hash hash scraped)) with
    | true =>
      have htrue : (run_update hash true stored scraped).1 = true := by
        simp [run_update, hfac, hch]
      rw [h1] at htrue
      exact Bool.noConfusion htrue
    | false =>
      have hsave : (run_update hash true stored scraped).2 = some scraped := by
        simp [run_update, hfac, hch]
      refine ⟨hsave, ?_⟩
      rw [hsave]
      exact hrun2

/-- C10 witness: under a constant hash, a stored file recording the same
hash makes run 1 report no changes and save the hash-less scraped catalog;
run 2 on that file reports changes although the faculties are identical. -/
theorem run_update_hash_only_on_change_witness :
    (run_update (fun _ => "H") true (some exStored) exScraped).2
      = some exScraped ∧
    (run_update (fun _ => "H") true
      ((run_update (fun _ => "H") true (some exStored) exScraped).2)
      exScraped).1 = true :=
  (run_update_hash_only_on_change (fun _ => "H")
    (fun _ h => absurd h (show ¬ ("H" = "") by decide)) true
    (some exStored) exScraped exScraped (by decide) (by decide) rfl).2
    (by decide)

end Miva
